import Mathlib

/-!
Verification of the PLEXOS co-optimized dashboard orchestration scripts.

Shallow embedding of:
* the simulation lifecycle controller of `Scripts/run_simulation max retries.py`
  (retry loop, monitoring loop) and of `Scripts/run_simulation.py` (monitoring
  loop without exception tolerance, completion sentinel);
* the dataset materializer of `Scripts/prepare_duckdb.py` (lock check, directory
  to table-name mapping, drop-then-create materialization, `fullkeyinfo` join);
* the reporting pipeline of `Scripts/processing_data.py` (filter, group-by-sum
  aggregate, view creation, export, top-level error handling).

External I/O (the vendor SDK, the OS process table, the parquet reader) is
modelled by explicit input streams / data parameters; time delays (`time.sleep`)
are abstracted to explicit trace events or dropped where no claim mentions them.
-/

namespace PlexosDash

/-! ## Simulation lifecycle controller (`run_simulation max retries.py`)

One `AttemptOutcome` summarizes one iteration of the outer retry loop
(lines 202-284): what the enqueue call did and, if a simulation started,
which terminal condition the monitoring loop reported for it. -/

/-- Outcome of one attempt of the retry loop of `run_simulation max retries.py`:
the enqueue call can raise (line 213), return a non-success response (line 219)
or a malformed one (line 229); otherwise monitoring ends in `CompletedSuccess`
(line 253), `Failed`/`Cancelled` (line 257) or the overall monitoring timeout
(line 264, which also covers a status that never becomes terminal). -/
inductive AttemptOutcome
  | enqueueRaised
  | enqueueNonSuccess
  | enqueueMalformed
  | completedSuccess
  | failed
  | cancelled
  | timedOut
deriving DecidableEq

/-- The two outcomes after which the loop re-enqueues (line 273:
`run_status in ["Failed", "Cancelled"]`). -/
def retryEligible : AttemptOutcome → Bool
  | .failed => true
  | .cancelled => true
  | _ => false

/-- Observable events of the retry loop: a submission (enqueue call, line 208)
and the fixed retry delay (`time.sleep(RETRY_DELAY_SECONDS)`, line 276). -/
inductive RunEvent
  | submit
  | retryDelay
deriving DecidableEq

/-- The retry loop of `main` (lines 199-284), driven by a stream of per-attempt
outcomes. `i` is the number of attempts already performed, the second argument
the remaining attempt budget (`MAX_ENQUEUE_RETRIES - i`). Returns the event
trace and the final `simulation_successful` flag. On `Failed`/`Cancelled` the
loop sleeps and re-enqueues only when attempts remain (line 274); every other
non-success outcome stops the loop at once. -/
def runAux (outcomes : Nat → AttemptOutcome) : Nat → Nat → List RunEvent × Bool
  | _, 0 => ([], false)
  | i, 1 =>
    if outcomes i = .completedSuccess then ([.submit], true)
    else ([.submit], false)
  | i, rem + 2 =>
    if outcomes i = .completedSuccess then ([.submit], true)
    else if retryEligible (outcomes i) then
      let p := runAux outcomes (i + 1) (rem + 1)
      (.submit :: .retryDelay :: p.1, p.2)
    else ([.submit], false)

/-- The whole retry loop with attempt budget `maxAttempts`
(`MAX_ENQUEUE_RETRIES`). -/
def runWithRetries (maxAttempts : Nat) (outcomes : Nat → AttemptOutcome) :
    List RunEvent × Bool :=
  runAux outcomes 0 maxAttempts

/-- Number of submissions the loop performs starting at attempt `i` with the
given remaining budget: it advances past retry-eligible outcomes and stops at
the first other outcome. -/
def stopCount (outcomes : Nat → AttemptOutcome) : Nat → Nat → Nat
  | _, 0 => 0
  | i, rem + 1 =>
    if retryEligible (outcomes i) then 1 + stopCount outcomes (i + 1) rem else 1

/-- Canonical trace of `k` submissions: the first submission, then each further
submission preceded by the fixed retry delay. -/
def canonTrace : Nat → List RunEvent
  | 0 => []
  | 1 => [.submit]
  | k + 2 => .submit :: .retryDelay :: canonTrace (k + 1)

/-- Concrete outcome stream used to witness the retry-policy theorem: the first
attempt fails, the second completes successfully. -/
def exOutcomes : Nat → AttemptOutcome :=
  fun i => if i = 0 then .failed else .completedSuccess

/-! ## Monitoring loops (polling) -/

/-- Result of one `check_simulation_progress` poll: the call can raise, return
`None`/non-success, or return a success response carrying a status string. -/
inductive PollResult
  | raised
  | nonSuccess
  | ok (status : String)
deriving DecidableEq

/-- Terminal result of a monitoring loop: success, a remote-reported terminal
failure (`Failed` or `Cancelled`), or the overall watchdog timeout together
with the last successfully observed status (`run_status`). -/
inductive MonitorOutcome
  | completed
  | terminalFail (status : String)
  | timedOut (lastStatus : Option String)
deriving DecidableEq

/-- Monitoring loop of `run_simulation max retries.py` (lines 241-269). The
poll sits in a `try/except`: a raised call or a non-success response only logs
a warning and falls through to the timeout check. The first argument is the
remaining number of sleep intervals before `time.time() - start_time >
timeout_limit` trips; `last` is `run_status`, updated only by success
responses. The sleep itself is abstracted away. -/
def monitorAux (polls : Nat → PollResult) : Nat → Nat → Option String → MonitorOutcome
  | 0, i, last =>
    match polls i with
    | .ok s =>
      if s = "CompletedSuccess" then .completed
      else if s = "Failed" ∨ s = "Cancelled" then .terminalFail s
      else .timedOut (some s)
    | _ => .timedOut last
  | fuel + 1, i, last =>
    match polls i with
    | .ok s =>
      if s = "CompletedSuccess" then .completed
      else if s = "Failed" ∨ s = "Cancelled" then .terminalFail s
      else monitorAux polls fuel (i + 1) (some s)
    | _ => monitorAux polls fuel (i + 1) last

/-- Monitoring loop of `run_simulation.py` (lines 206-226). There is no
`try/except` around the poll call: a raised exception propagates out of `main`
(modelled as `Except.error`); only a non-success *response* is tolerated. This
variant does not track `run_status`. -/
def monitorV1 (polls : Nat → PollResult) : Nat → Nat → Except String MonitorOutcome
  | 0, i =>
    match polls i with
    | .raised => .error "unhandled exception from check_simulation_progress"
    | .nonSuccess => .ok (.timedOut none)
    | .ok s =>
      if s = "CompletedSuccess" then .ok .completed
      else if s = "Failed" ∨ s = "Cancelled" then .ok (.terminalFail s)
      else .ok (.timedOut none)
  | fuel + 1, i =>
    match polls i with
    | .raised => .error "unhandled exception from check_simulation_progress"
    | .nonSuccess => monitorV1 polls fuel (i + 1)
    | .ok s =>
      if s = "CompletedSuccess" then .ok .completed
      else if s = "Failed" ∨ s = "Cancelled" then .ok (.terminalFail s)
      else monitorV1 polls fuel (i + 1)

/-- Concrete poll stream for the C4 witness: first poll raises, second returns
a non-success response, after that the job reports `CompletedSuccess`. -/
def exPolls : Nat → PollResult :=
  fun i => if i = 0 then .raised
    else if i = 1 then .nonSuccess
    else .ok "CompletedSuccess"

/-! ## Artifact fetch: completion sentinel (`run_simulation.py`) -/

/-- A file written by a script: path and contents. -/
structure FileWrite where
  path : String
  contents : String
deriving DecidableEq

/-- `os.path.join` of a directory with a plain file name, as used by both
run-simulation scripts (separator abstracted to `/`). -/
def joinPath (dir name : String) : String := dir ++ "/" ++ name

/-- The completion-flag write of `run_simulation.py` lines 255-258 (identical
in `run_simulation max retries.py` lines 314-317): the file
`parquet_ready.done` beside the downloaded artifacts, with the single line
`done` written into it (`done_file.write("done\n")`). -/
def sentinelWrite (solutionOutputPath : String) : FileWrite :=
  ⟨joinPath solutionOutputPath "parquet_ready.done", "done\n"⟩

/-- Success/failure discriminator of an SDK response
(`response.Status == "Success"`). -/
inductive SdkResp
  | success
  | failure
deriving DecidableEq

/-- File writes of the artifact-fetch phase after a successful simulation
(`run_simulation.py` lines 228-261): if the solution id cannot be retrieved
the function returns without writing anything; otherwise the solution download
is attempted and the sentinel flag is written (the downloads themselves are
performed by the external SDK, so only the sentinel is a local write). -/
def downloadPhaseWrites (solutionOutputPath : String) (solResp : SdkResp) :
    List FileWrite :=
  match solResp with
  | .failure => []
  | .success => [sentinelWrite solutionOutputPath]

/-! ## Top-level error handling of the materializer and reporting scripts -/

/-- The `__main__` block of `prepare_duckdb.py` (lines 219-232): the body runs
inside `try`; an exception is caught, two lines are printed, and `finally`
prints `done`. No `sys.exit` is called anywhere, so the process exit code is 0
on both paths. `pre` are the lines the body printed before finishing or
raising; the result is (all printed lines, process exit code). -/
def prepareMainRun (pre : List String) (body : Except String Unit) :
    List String × Nat :=
  match body with
  | .ok _ => (pre ++ ["done"], 0)
  | .error e => (pre ++ ["Prepare DuckDB (tables) failed:", e, "done"], 0)

/-- `main` of `processing_data.py` (lines 108-132): same try/except/finally
shape; the exception is printed and `finally` prints `done`; no non-zero exit
is ever requested. -/
def processingMainRun (pre : List String) (body : Except String Unit) :
    List String × Nat :=
  match body with
  | .ok _ => (pre ++ ["done"], 0)
  | .error e => (pre ++ ["Processing failed with exception:", e, "done"], 0)

/-! ## Dataset materializer (`prepare_duckdb.py`) -/

/-- A database value: string, integer, or SQL NULL. (Numeric parquet payloads
are abstracted to integers or strings; no claim about the materializer depends
on floating-point behaviour.) -/
inductive DbVal
  | str (s : String)
  | int (n : Int)
  | null
deriving DecidableEq

/-- A row: association list from column name to value. -/
abbrev DbRow := List (String × DbVal)

/-- A table: declared columns plus rows. -/
structure DbTable where
  cols : List String
  rows : List DbRow
deriving DecidableEq

/-- The tables of one DuckDB database file, in catalog order. -/
abbrev Tables := List (String × DbTable)

/-- Look a table up by name (e.g. what `PRAGMA table_info` inspects). -/
def getT (ts : Tables) (n : String) : Option DbTable :=
  (ts.find? (fun p => p.1 == n)).map (·.2)

/-- One executed SQL statement that changes the catalog: `DROP TABLE IF EXISTS`
or `CREATE TABLE ... AS ...` together with the materialized result. -/
inductive DbOp
  | dropIfExists (n : String)
  | create (n : String) (t : DbTable)
deriving DecidableEq

def applyOp (ts : Tables) : DbOp → Tables
  | .dropIfExists n => ts.filter (fun p => p.1 != n)
  | .create n t => ts ++ [(n, t)]

def applyOps (ops : List DbOp) (ts : Tables) : Tables :=
  ops.foldl applyOp ts

/-- Names dropped by a statement list. -/
def dropNames (ops : List DbOp) : List String :=
  ops.filterMap fun op =>
    match op with
    | .dropIfExists n => some n
    | .create _ _ => none

/-- Names created by a statement list. -/
def createNames (ops : List DbOp) : List String :=
  ops.filterMap fun op =>
    match op with
    | .dropIfExists _ => none
    | .create n _ => some n

/-- Entries of `ts` whose name is not in `ns`. -/
def dropAllNames (ts : Tables) (ns : List String) : Tables :=
  ts.filter (fun p => !ns.contains p.1)

/-- Python `str.lower()` over ASCII (the directory names involved are
ASCII). -/
def lowerAscii (str : String) : String := ⟨str.data.map Char.toLower⟩

/-- Python `\w` over ASCII: letters, digits, underscore. -/
def isWordChar (c : Char) : Bool := c.isAlphanum || c == '_'

/-- `re.sub(r'\W+', '_', s)`: each maximal run of non-word characters becomes
one underscore. The flag records whether the previous character belonged to a
non-word run whose underscore was already emitted. -/
def collapseNonWord : Bool → List Char → List Char
  | _, [] => []
  | prevNW, c :: rest =>
    if isWordChar c then c :: collapseNonWord false rest
    else if prevNW then collapseNonWord true rest
    else '_' :: collapseNonWord true rest

/-- Python `str.strip('_')`. -/
def stripUnderscores (cs : List Char) : List Char :=
  ((cs.dropWhile (· == '_')).reverse.dropWhile (· == '_')).reverse

/-- `sanitize_view_name` (`prepare_duckdb.py` lines 28-30) applied to the
path of a directory relative to the model directory: non-word characters
collapsed to underscores, then leading/trailing underscores stripped. (ASCII
word characters; the table paths involved are ASCII.) -/
def sanitize_view_name (relpath : String) : String :=
  ⟨stripUnderscores (collapseNonWord false relpath.data)⟩

/-- One source subdirectory found under the model directory by `os.walk`: its
path relative to the model directory, its base name (`os.path.basename`),
whether the recursive parquet glob over it is non-empty, and the
`read_parquet` result over its files. -/
structure SrcDir where
  relpath : String
  baseName : String
  hasParquet : Bool
  content : DbTable
deriving DecidableEq

/-- The table name derived for one directory: the `canonical_views` map
(lines 97-101) over the lowered base name, else the sanitized relative path
(line 122). -/
def tableNameOf (d : SrcDir) : String :=
  if lowerAscii d.baseName == "period" then "Period"
  else if lowerAscii d.baseName == "data" then "data"
  else if lowerAscii d.baseName == "unit" then "unit"
  else sanitize_view_name d.relpath

/-- SQL statements of the main directory loop (lines 108-138): skip a
directory without parquet files, defer `fullkeyinfo`, skip an empty derived
name, else `DROP TABLE IF EXISTS` followed by `CREATE TABLE ... AS SELECT *
FROM read_parquet(...)`. -/
def dirOps (dirs : List SrcDir) : List DbOp :=
  dirs.flatMap fun d =>
    if d.hasParquet = false then []
    else if lowerAscii d.baseName == "fullkeyinfo" then []
    else if tableNameOf d == "" then []
    else [.dropIfExists (tableNameOf d), .create (tableNameOf d) d.content]

/-- The deferred `fullkeyinfo` source: line 119 overwrites `fullkeyinfo_path`
on each hit, so the last `fullkeyinfo` directory containing parquet files
wins. -/
def fkiSource (dirs : List SrcDir) : Option DbTable :=
  ((dirs.filter fun d =>
      d.hasParquet && lowerAscii d.baseName == "fullkeyinfo").getLast?).map (·.content)

/-- Value of column `c` in row `r` (SQL NULL when the column is absent). -/
def getVal (r : DbRow) (c : String) : DbVal :=
  match r.find? (fun p => p.1 == c) with
  | some p => p.2
  | none => .null

/-- SQL equality as used in a join predicate: NULL compares false against
everything (and so do mismatched types). -/
def dbEq : DbVal → DbVal → Bool
  | .str a, .str b => a == b
  | .int a, .int b => a == b
  | _, _ => false

/-- Output rows of `LEFT JOIN unit u ON fki.UnitId = u.UnitId` (lines 160-165)
for one staging row: one output row per matching unit row, or the staging row
extended with a NULL `UnitName` when nothing matches. -/
def joinRowUnit (unit : DbTable) (r : DbRow) : List DbRow :=
  match unit.rows.filter (fun u => dbEq (getVal u "UnitId") (getVal r "UnitId")) with
  | [] => [r ++ [("UnitName", DbVal.null)]]
  | ms => ms.map fun u => r ++ [("UnitName", getVal u "UnitName")]

/-- `SELECT fki.*, u.UnitName FROM fullkeyinfo_base fki LEFT JOIN unit u ON
fki.UnitId = u.UnitId` (lines 160-165). -/
def leftJoinUnit (staging unit : DbTable) : DbTable :=
  ⟨staging.cols ++ ["UnitName"], staging.rows.flatMap (joinRowUnit unit)⟩

/-- The single enriched row the left join produces for `r` when the unit keys
are unique: the `UnitName` of the matching unit row, or NULL. -/
def enrichRow (unit : DbTable) (r : DbRow) : DbRow :=
  match unit.rows.find? (fun u => dbEq (getVal u "UnitId") (getVal r "UnitId")) with
  | some u => r ++ [("UnitName", getVal u "UnitName")]
  | none => r ++ [("UnitName", DbVal.null)]

/-- The column list `PRAGMA table_info(unit)` yields: the columns of the
`unit` table when it exists, nothing when the PRAGMA raises (line 154). -/
def unitColsOf : Option DbTable → List String
  | some u => u.cols
  | none => []

/-- The table the fullkeyinfo step materializes (lines 159-173): the left join
against `unit` when `unit` has both `UnitId` and `UnitName` columns, the
staging table copied as-is otherwise. -/
def fkiFinal (staging : DbTable) (unitAtJoin : Option DbTable) : DbTable :=
  if (unitColsOf unitAtJoin).contains "UnitId" &&
      (unitColsOf unitAtJoin).contains "UnitName" then
    leftJoinUnit staging (unitAtJoin.getD ⟨[], []⟩)
  else staging

/-- SQL statements of the deferred fullkeyinfo step (lines 140-178): create
the staging table `fullkeyinfo_base`, create `fullkeyinfo` from it (join or
copy per `fkiFinal`), then drop the staging table. `unitAtJoin` is the `unit`
table present in the store when the `PRAGMA` runs. -/
def fkiOps (fkiStaging unitAtJoin : Option DbTable) : List DbOp :=
  match fkiStaging with
  | none => []
  | some staging =>
    [.dropIfExists "fullkeyinfo_base", .create "fullkeyinfo_base" staging,
     .dropIfExists "fullkeyinfo", .create "fullkeyinfo" (fkiFinal staging unitAtJoin),
     .dropIfExists "fullkeyinfo_base"]

/-- SQL statements of the optional memberships CSV load (lines 189-200). -/
def memOps (csv : Option DbTable) : List DbOp :=
  match csv with
  | none => []
  | some t => [.dropIfExists "memberships", .create "memberships" t]

/-- The inputs `prepare_duckdb` reads: the subdirectories of the model
directory in `os.walk` order, and the optional memberships CSV. -/
structure SrcTree where
  dirs : List SrcDir
  membershipsCsv : Option DbTable
deriving DecidableEq

/-- The table-level effect of `prepare_duckdb` (lines 105-208) on the store:
the directory loop, then the deferred fullkeyinfo step joining against the
`unit` table present at that point, then the memberships load. The quick
sanity checks of lines 202-208 only read. -/
def prepareTables (src : SrcTree) (ts : Tables) : Tables :=
  let ts1 := applyOps (dirOps src.dirs) ts
  let ts2 := applyOps (fkiOps (fkiSource src.dirs) (getT ts1 "unit")) ts1
  applyOps (memOps src.membershipsCsv) ts2

/-- All statements of one `prepare_duckdb` run, given the `unit` table visible
to the fullkeyinfo join. -/
def prepareOps (src : SrcTree) (unitAtJoin : Option DbTable) : List DbOp :=
  dirOps src.dirs ++ fkiOps (fkiSource src.dirs) unitAtJoin ++
    memOps src.membershipsCsv

/-- The `unit` table the fullkeyinfo step of a run on `ts` sees. -/
def unitAfterDirs (src : SrcTree) (ts : Tables) : Option DbTable :=
  getT (applyOps (dirOps src.dirs) ts) "unit"

/-- `is_file_locked` (lines 41-65): scan the process table up to `retries`
times; a scan finding no holder returns `None` at once; otherwise sleep and
rescan, and after the budget return the holder PID seen by the last scan.
`scans i` is the holder found by the `i`-th scan. (With `retries = 0` the
Python function would hit an unbound local; both callers use the default
`retries = 5`.) -/
def is_file_locked_go (scans : Nat → Option Nat) :
    Nat → Option Nat → Nat → Option Nat
  | _, last, 0 => last
  | i, _, r + 1 =>
    match scans i with
    | none => none
    | some pid => is_file_locked_go scans (i + 1) (some pid) r

def is_file_locked (scans : Nat → Option Nat) (retries : Nat) : Option Nat :=
  is_file_locked_go scans 0 none retries

/-- `prepare_duckdb` up to and including the lock check (lines 82-88): when
the destination file is still held after the full retry budget, a
`RuntimeError` is raised (first component `some pid`) before any SQL statement
runs and the store is returned untouched; otherwise the tables are
materialized. -/
def prepare_duckdb_entry (scans : Nat → Option Nat) (retries : Nat)
    (src : SrcTree) (store : Tables) : Option Nat × Tables :=
  match is_file_locked scans retries with
  | some pid => (some pid, store)
  | none => (none, prepareTables src store)

/-- The set of table names of a store, in catalog order. -/
def tableNames (ts : Tables) : List String := ts.map (·.1)

/-- Row count of table `n` (the `SELECT COUNT(*)` sanity check). -/
def rowCount (ts : Tables) (n : String) : Option Nat :=
  (getT ts n).map (·.rows.length)

/-! ## Concrete materializer inputs for witnesses and counterexamples -/

/-- Process-table scans that always find PID 7 holding the store file. -/
def exScans : Nat → Option Nat := fun _ => some 7

/-- An empty source tree. -/
def exSrcEmpty : SrcTree := ⟨[], none⟩

/-- Directory `a-b`: sanitizes to `a_b`. -/
def exDirA : SrcDir := ⟨"a-b", "a-b", true, ⟨["x"], [[("x", .int 1)]]⟩⟩

/-- Directory `a_b`: also sanitizes to `a_b`, yet is a different directory. -/
def exDirB : SrcDir := ⟨"a_b", "a_b", true, ⟨["x"], [[("x", .int 2)]]⟩⟩

/-- A well-formed `unit` lookup table with one row `(1, "TJ")`. -/
def exUnitTable : DbTable :=
  ⟨["UnitId", "UnitName"], [[("UnitId", .int 1), ("UnitName", .str "TJ")]]⟩

/-- A fullkeyinfo staging table with two rows, both referencing unit 1. -/
def exFkiStaging : DbTable :=
  ⟨["SeriesId", "UnitId"],
   [[("SeriesId", .int 1), ("UnitId", .int 1)],
    [("SeriesId", .int 2), ("UnitId", .int 1)]]⟩

/-- Source tree with a `unit` directory and a `fullkeyinfo` directory. -/
def exSrcC3 : SrcTree :=
  ⟨[⟨"unit", "unit", true, exUnitTable⟩,
    ⟨"fullkeyinfo", "fullkeyinfo", true, exFkiStaging⟩], none⟩

/-- A `unit` table with a duplicated `UnitId` key (two rows with `UnitId = 1`). -/
def exUnitDup : DbTable :=
  ⟨["UnitId", "UnitName"],
   [[("UnitId", .int 1), ("UnitName", .str "A")],
    [("UnitId", .int 1), ("UnitName", .str "B")]]⟩

/-- A staging table with a single row referencing unit 1. -/
def exStagingOne : DbTable :=
  ⟨["SeriesId", "UnitId"], [[("SeriesId", .int 1), ("UnitId", .int 1)]]⟩

/-! ## Reporting pipeline (`processing_data.py`) -/

/-- One row of the materialized `fullkeyinfo` table, with the columns the
reporting views reference (field names are the SQL column names). -/
structure FkiRow where
  SeriesId : Int
  PhaseName : String
  BandId : Int
  PeriodTypeName : String
  ParentObjectCategoryName : String
  ParentObjectName : String
  ChildObjectCategoryName : String
  ParentClassName : String
  CollectionName : String
  ChildClassName : String
  PropertyName : String
  UnitValue : String
  TimesliceName : String
  ModelName : String
  SampleId : Int
  SampleName : String
  ChildObjectName : String
  UnitName : Option String
deriving DecidableEq

/-- One row of the `data` table. The numeric `Value` column is embedded as a
rational, abstracting the engine's machine arithmetic. -/
structure DataRow where
  SeriesId : Int
  PeriodId : Int
  Value : ℚ
deriving DecidableEq

/-- One row of the `regional_generation_capacity` view: `key.*` plus
`d.PeriodId, d.Value`. -/
structure RGCRow where
  key : FkiRow
  PeriodId : Int
  Value : ℚ
deriving DecidableEq

/-- The `WHERE` clause of `regional_generation_capacity` (lines 50-55). -/
def rgcPred (k : FkiRow) : Bool :=
  k.PeriodTypeName == "Interval" && k.PhaseName == "ST" &&
  k.ParentClassName == "System" && k.ChildClassName == "Generator" &&
  (k.PropertyName == "Generation" || k.PropertyName == "Available Capacity")

/-- The `regional_generation_capacity` view (lines 42-56): `fullkeyinfo`
INNER JOIN `data` on `SeriesId`, filtered by the fixed criteria. -/
def regional_generation_capacity (fki : List FkiRow) (data : List DataRow) :
    List RGCRow :=
  fki.flatMap fun k =>
    if rgcPred k then
      (data.filter fun d => d.SeriesId == k.SeriesId).map
        fun d => ⟨k, d.PeriodId, d.Value⟩
    else []

/-- The `GROUP BY` tuple of `region_aggregate_totals` (lines 58-71): every
selected dimension column; `SeriesId` (and the join-attached `UnitName`) are
not part of it. -/
structure AggDims where
  PhaseName : String
  BandId : Int
  PeriodTypeName : String
  ParentObjectCategoryName : String
  ParentObjectName : String
  ChildObjectCategoryName : String
  ParentClassName : String
  CollectionName : String
  ChildClassName : String
  PropertyName : String
  UnitValue : String
  TimesliceName : String
  ModelName : String
  SampleId : Int
  SampleName : String
  PeriodId : Int
  ChildObjectName : String
deriving DecidableEq

/-- The grouping tuple of one filtered row. -/
def dimsOf (r : RGCRow) : AggDims :=
  ⟨r.key.PhaseName, r.key.BandId, r.key.PeriodTypeName,
   r.key.ParentObjectCategoryName, r.key.ParentObjectName,
   r.key.ChildObjectCategoryName, r.key.ParentClassName, r.key.CollectionName,
   r.key.ChildClassName, r.key.PropertyName, r.key.UnitValue,
   r.key.TimesliceName, r.key.ModelName, r.key.SampleId, r.key.SampleName,
   r.PeriodId, r.key.ChildObjectName⟩

/-- Add `v` into the accumulated total of group `d` (hash-aggregate step). -/
def upsertTotal (acc : List (AggDims × ℚ)) (d : AggDims) (v : ℚ) :
    List (AggDims × ℚ) :=
  match acc with
  | [] => [(d, v)]
  | (d', v') :: rest =>
    if d' = d then (d', v' + v) :: rest else (d', v') :: upsertTotal rest d v

/-- The `region_aggregate_totals` view (lines 58-71): `SUM(Value) AS
TotalValue` grouped by the dimension tuple, computed as an aggregation fold
over the filtered rows. -/
def region_aggregate_totals (rows : List RGCRow) : List (AggDims × ℚ) :=
  rows.foldl (fun acc r => upsertTotal acc (dimsOf r) r.Value) []

/-- Declarative sum of the `Value` column over the filtered rows of one
dimension tuple. -/
def sumFor (rows : List RGCRow) (d : AggDims) : ℚ :=
  ((rows.filter fun r => dimsOf r == d).map (·.Value)).sum

/-- `TotalValue` of group `d` in an aggregation result. -/
def lookupTotal (agg : List (AggDims × ℚ)) (d : AggDims) : Option ℚ :=
  (agg.find? fun p => p.1 == d).map (·.2)

/-- The three reporting projections `configure_views` defines. -/
inductive ViewDef
  | regionalGenerationCapacity
  | regionAggregateTotals
  | reportingData
deriving DecidableEq

/-- A store file: tables plus the view definitions persisted in its catalog
(DuckDB persists `CREATE VIEW` results in a file-backed database). -/
structure Store where
  tables : Tables
  views : List (String × ViewDef)
deriving DecidableEq

/-- `CREATE OR REPLACE VIEW n`: replace semantics on the view catalog. -/
def setView (vs : List (String × ViewDef)) (n : String) (d : ViewDef) :
    List (String × ViewDef) :=
  vs.filter (fun p => p.1 != n) ++ [(n, d)]

/-- `configure_views` (lines 40-90): three `CREATE OR REPLACE VIEW`
statements. Only view definitions are written into the catalog; no table is
touched. -/
def configure_views (s : Store) : Store :=
  { s with
    views :=
      setView
        (setView
          (setView s.views "regional_generation_capacity"
            .regionalGenerationCapacity)
          "region_aggregate_totals" .regionAggregateTotals)
        "reporting_data" .reportingData }

/-- `load_memberships` (lines 26-38): when the CSV exists, drop and recreate
the `memberships` table; otherwise leave the store untouched. -/
def load_memberships (s : Store) (csv : Option DbTable) : Store :=
  match csv with
  | none => s
  | some t =>
    { s with
      tables :=
        applyOps [.dropIfExists "memberships", .create "memberships" t]
          s.tables }

/-- The snapshot files `export_data` (lines 92-106) writes: one parquet and
one CSV, both date-stamped. The store is only read. -/
def export_data_files (output_path date_str : String) : List String :=
  [output_path ++ "/solution_data_" ++ date_str ++ ".parquet",
   output_path ++ "/solution_data_" ++ date_str ++ ".csv"]

/-- One reporting run (`main`, lines 108-132): load memberships, (re)create
the three views, export. Returns the store as the run leaves it and the
exported snapshot paths. -/
def processing_run (s : Store) (csv : Option DbTable)
    (output_path date_str : String) : Store × List String :=
  (configure_views (load_memberships s csv),
   export_data_files output_path date_str)

/-- Concrete store with one source table, for the C8 witness. -/
def exStoreC8 : Store := ⟨[("data", ⟨["x"], []⟩)], []⟩

/-- A fullkeyinfo row passing the filter, series 1, child object `GenA`. -/
def exKey1 : FkiRow :=
  ⟨1, "ST", 1, "Interval", "pcat", "pobj", "ccat", "System", "coll",
   "Generator", "Generation", "GWh", "tsl", "mdl", 1, "smp", "GenA", none⟩

/-- Like `exKey1` but series 2 and child object `GenB`. -/
def exKey2 : FkiRow :=
  ⟨2, "ST", 1, "Interval", "pcat", "pobj", "ccat", "System", "coll",
   "Generator", "Generation", "GWh", "tsl", "mdl", 1, "smp", "GenB", none⟩

/-- Three data rows: values 5 and 7 on series 1, value 3 on series 2. -/
def exData : List DataRow := [⟨1, 1, 5⟩, ⟨1, 1, 7⟩, ⟨2, 1, 3⟩]

/-- The dimension tuple of `exKey1`'s filtered rows. -/
def exDims1 : AggDims :=
  ⟨"ST", 1, "Interval", "pcat", "pobj", "ccat", "System", "coll",
   "Generator", "Generation", "GWh", "tsl", "mdl", 1, "smp", 1, "GenA"⟩

/-- The dimension tuple of `exKey2`'s filtered row. -/
def exDims2 : AggDims :=
  ⟨"ST", 1, "Interval", "pcat", "pobj", "ccat", "System", "coll",
   "Generator", "Generation", "GWh", "tsl", "mdl", 1, "smp", 1, "GenB"⟩

/-! ## Theorems -/

/-! ### Lifecycle controller: retry policy (C1) -/

theorem stopCount_le (outcomes : Nat → AttemptOutcome) :
    ∀ rem i, stopCount outcomes i rem ≤ rem := by
  intro rem
  induction rem with
  | zero => intro i; simp [stopCount]
  | succ r ih =>
    intro i
    simp only [stopCount]
    split
    · have := ih (i + 1)
      omega
    · omega

theorem stopCount_pos (outcomes : Nat → AttemptOutcome) (i rem : Nat) :
    1 ≤ stopCount outcomes i (rem + 1) := by
  simp only [stopCount]
  split <;> omega

theorem stopCount_of_firstStop (outcomes : Nat → AttemptOutcome) :
    ∀ rem i k, (∀ j, j < k → retryEligible (outcomes (i + j)) = true) →
      retryEligible (outcomes (i + k)) = false →
      stopCount outcomes i rem = min rem (k + 1) := by
  intro rem
  induction rem with
  | zero => intro i k _ _; simp [stopCount]
  | succ r ih =>
    intro i k hpre hstop
    match k with
    | 0 =>
      have h0 : retryEligible (outcomes i) = false := by simpa using hstop
      simp [stopCount, h0]
    | k' + 1 =>
      have h0 : retryEligible (outcomes i) = true := by
        have := hpre 0 (by omega)
        simpa using this
      have hpre' : ∀ j, j < k' → retryEligible (outcomes (i + 1 + j)) = true := by
        intro j hj
        have := hpre (j + 1) (by omega)
        have harith : i + (j + 1) = i + 1 + j := by omega
        rwa [harith] at this
      have hstop' : retryEligible (outcomes (i + 1 + k')) = false := by
        have harith : i + (k' + 1) = i + 1 + k' := by omega
        rwa [harith] at hstop
      have := ih (i + 1) k' hpre' hstop'
      simp only [stopCount, h0, if_true]
      omega

theorem stopCount_of_allEligible (outcomes : Nat → AttemptOutcome) :
    ∀ rem i, (∀ j, j < rem → retryEligible (outcomes (i + j)) = true) →
      stopCount outcomes i rem = rem := by
  intro rem
  induction rem with
  | zero => intro i _; simp [stopCount]
  | succ r ih =>
    intro i h
    have h0 : retryEligible (outcomes i) = true := by
      have := h 0 (by omega)
      simpa using this
    have h' : ∀ j, j < r → retryEligible (outcomes (i + 1 + j)) = true := by
      intro j hj
      have := h (j + 1) (by omega)
      have harith : i + (j + 1) = i + 1 + j := by omega
      rwa [harith] at this
    simp only [stopCount, h0, if_true]
    rw [ih (i + 1) h']
    omega

theorem stopCount_retryEligible (outcomes : Nat → AttemptOutcome) :
    ∀ rem i k, k + 1 < stopCount outcomes i rem →
      retryEligible (outcomes (i + k)) = true := by
  intro rem
  induction rem with
  | zero => intro i k h; simp [stopCount] at h
  | succ r ih =>
    intro i k h
    simp only [stopCount] at h
    cases h0 : retryEligible (outcomes i) with
    | false =>
      rw [h0] at h
      simp at h
    | true =>
      rw [h0] at h
      simp only [if_true] at h
      match k with
      | 0 => simpa using h0
      | k' + 1 =>
        have := ih (i + 1) k' (by omega)
        have harith : i + 1 + k' = i + (k' + 1) := by omega
        rwa [harith] at this

theorem runAux_trace (outcomes : Nat → AttemptOutcome) :
    ∀ rem i, (runAux outcomes i rem).1 = canonTrace (stopCount outcomes i rem) := by
  intro rem
  induction rem with
  | zero => intro i; simp [runAux, stopCount, canonTrace]
  | succ r ih =>
    intro i
    match r with
    | 0 =>
      by_cases h : outcomes i = .completedSuccess
      · have helig : retryEligible (outcomes i) = false := by
          rw [h]; rfl
        simp [runAux, stopCount, h, helig, canonTrace]
      · cases helig : retryEligible (outcomes i) with
        | true => simp [runAux, stopCount, h, helig, canonTrace]
        | false => simp [runAux, stopCount, h, helig, canonTrace]
    | r' + 1 =>
      by_cases h : outcomes i = .completedSuccess
      · have helig : retryEligible (outcomes i) = false := by
          rw [h]; rfl
        simp [runAux, stopCount, h, helig, canonTrace]
      · cases helig : retryEligible (outcomes i) with
        | false => simp [runAux, stopCount, h, helig, canonTrace]
        | true =>
          have hpos := stopCount_pos outcomes (i + 1) r'
          obtain ⟨m, hm⟩ : ∃ m, stopCount outcomes (i + 1) (r' + 1) = m + 1 :=
            ⟨stopCount outcomes (i + 1) (r' + 1) - 1, by omega⟩
          have htr := ih (i + 1)
          have hsc2 : stopCount outcomes i (r' + 2) =
              1 + stopCount outcomes (i + 1) (r' + 1) := by
            simp only [stopCount, helig, if_true]
          have harith : 1 + (m + 1) = m + 2 := by omega
          simp only [runAux, h, if_false, helig, if_true]
          rw [htr, hm, hsc2, hm, harith]
          rfl

theorem canonTrace_count_submit :
    ∀ k, (canonTrace k).count RunEvent.submit = k := by
  intro k
  induction k with
  | zero => simp [canonTrace]
  | succ k' ih =>
    match k' with
    | 0 => simp [canonTrace, List.count_cons]
    | k'' + 1 =>
      simp only [canonTrace, List.count_cons] at ih ⊢
      simp_all [List.count_cons]

theorem runAux_success (outcomes : Nat → AttemptOutcome) :
    ∀ rem i, (runAux outcomes i rem).2 = true ↔
      ∃ k, k < rem ∧ outcomes (i + k) = .completedSuccess ∧
        ∀ j, j < k → retryEligible (outcomes (i + j)) = true := by
  intro rem
  induction rem with
  | zero =>
    intro i
    simp [runAux]
  | succ r ih =>
    intro i
    have hnotCS : ∀ x, retryEligible x = true → x ≠ AttemptOutcome.completedSuccess := by
      intro x hx
      cases x <;> simp_all [retryEligible]
    by_cases h : outcomes i = .completedSuccess
    · have hres : (runAux outcomes i (r + 1)).2 = true := by
        match r with
        | 0 => simp [runAux, h]
        | r' + 1 => simp [runAux, h]
      rw [hres]
      simp only [true_iff]
      exact ⟨0, by omega, by simpa using h, by omega⟩
    · cases helig : retryEligible (outcomes i) with
      | false =>
        have hres : (runAux outcomes i (r + 1)).2 = false := by
          match r with
          | 0 => simp [runAux, h]
          | r' + 1 => simp [runAux, h, helig]
        rw [hres]
        simp only [Bool.false_eq_true, false_iff]
        rintro ⟨k, hk, hcs, hpre⟩
        match k with
        | 0 => rw [Nat.add_zero] at hcs; exact h hcs
        | k' + 1 =>
          have := hpre 0 (by omega)
          rw [Nat.add_zero] at this
          rw [this] at helig
          exact absurd helig (by simp)
      | true =>
        match r with
        | 0 =>
          have hres : (runAux outcomes i 1).2 = false := by
            simp [runAux, h]
          rw [hres]
          simp only [Bool.false_eq_true, false_iff]
          rintro ⟨k, hk, hcs, hpre⟩
          have hk0 : k = 0 := by omega
          rw [hk0, Nat.add_zero] at hcs
          exact h hcs
        | r' + 1 =>
          have hres : (runAux outcomes i (r' + 2)).2 =
              (runAux outcomes (i + 1) (r' + 1)).2 := by
            simp [runAux, h, helig]
          rw [hres, ih (i + 1)]
          constructor
          · rintro ⟨k, hk, hcs, hpre⟩
            refine ⟨k + 1, by omega, ?_, ?_⟩
            · have harith : i + (k + 1) = i + 1 + k := by omega
              rwa [harith]
            · intro j hj
              match j with
              | 0 => simpa using helig
              | j' + 1 =>
                have := hpre j' (by omega)
                have harith : i + (j' + 1) = i + 1 + j' := by omega
                rwa [harith]
          · rintro ⟨k, hk, hcs, hpre⟩
            match k with
            | 0 =>
              rw [Nat.add_zero] at hcs
              exact absurd hcs h
            | k' + 1 =>
              refine ⟨k', by omega, ?_, ?_⟩
              · have harith : i + 1 + k' = i + (k' + 1) := by omega
                rwa [harith]
              · intro j hj
                have := hpre (j + 1) (by omega)
                have harith : i + (j + 1) = i + 1 + j := by omega
                rwa [harith] at this

/-- **C1.** Retry policy of the lifecycle controller (`run_simulation max
retries.py`, lines 199-284). For every attempt bound `N ≥ 1` and outcome
stream: if the first non-retry-eligible outcome sits at position `k`, the loop
performs exactly `min N (k+1)` submissions and its trace is one submission
followed by (retry delay, submission) pairs; if every outcome in the budget is
`Failed`/`Cancelled`, exactly `N` submissions happen (exhaustion); every
re-submission is justified by a preceding `Failed`/`Cancelled` outcome; and the
run is successful iff a `CompletedSuccess` outcome is reached before the budget
runs out, with only `Failed`/`Cancelled` outcomes before it. In particular no
submission follows a monitoring timeout, malformed enqueue response, enqueue
failure, or unknown status. -/
theorem lifecycle_retry_policy (N : Nat) (outcomes : Nat → AttemptOutcome)
    (hN : 1 ≤ N) :
    (∀ k, (∀ j, j < k → retryEligible (outcomes j) = true) →
        retryEligible (outcomes k) = false →
        (runWithRetries N outcomes).1 = canonTrace (min N (k + 1)) ∧
        (runWithRetries N outcomes).1.count RunEvent.submit = min N (k + 1)) ∧
    ((∀ j, j < N → retryEligible (outcomes j) = true) →
        (runWithRetries N outcomes).1.count RunEvent.submit = N) ∧
    (∀ k, k + 1 < (runWithRetries N outcomes).1.count RunEvent.submit →
        (outcomes k = .failed ∨ outcomes k = .cancelled)) ∧
    ((runWithRetries N outcomes).2 = true ↔
        ∃ k, k < N ∧ outcomes k = .completedSuccess ∧
          ∀ j, j < k → retryEligible (outcomes j) = true) := by
  have htrace := runAux_trace outcomes N 0
  refine ⟨?_, ?_, ?_, ?_⟩
  · intro k hpre hstop
    have hsc := stopCount_of_firstStop outcomes N 0 k
      (by intro j hj; simpa using hpre j hj) (by simpa using hstop)
    constructor
    · rw [runWithRetries, htrace, hsc]
    · rw [runWithRetries, htrace, hsc, canonTrace_count_submit]
  · intro hall
    have hsc := stopCount_of_allEligible outcomes N 0
      (by intro j hj; simpa using hall j hj)
    rw [runWithRetries, htrace, hsc, canonTrace_count_submit]
  · intro k hk
    rw [runWithRetries, htrace, canonTrace_count_submit] at hk
    have := stopCount_retryEligible outcomes N 0 k hk
    rw [Nat.zero_add] at this
    cases houtk : outcomes k <;> simp [retryEligible, houtk] at this ⊢
  · have := runAux_success outcomes N 0
    simpa using this

/-- Witness for C1 at `N = 3` with the first attempt `Failed` and the second
`CompletedSuccess`: two submissions separated by one retry delay, success. -/
theorem lifecycle_retry_policy_witness :
    (runWithRetries 3 exOutcomes).1 =
      [RunEvent.submit, RunEvent.retryDelay, RunEvent.submit] ∧
    (runWithRetries 3 exOutcomes).1.count RunEvent.submit = 2 ∧
    (runWithRetries 3 exOutcomes).2 = true := by
  have h := lifecycle_retry_policy 3 exOutcomes (by decide)
  have h1 := h.1 1 (by intro j hj; interval_cases j <;> decide) (by decide)
  refine ⟨?_, ?_, ?_⟩
  · rw [h1.1]; decide
  · rw [h1.2]; decide
  · exact h.2.2.2.2 ⟨1, by decide, by decide, by intro j hj; interval_cases j <;> decide⟩

/-! ### Polling error tolerance (C4) -/

/-- **C4 counterexample.** The claim covers both cited scripts, but in
`run_simulation.py` (lines 206-226) the poll call sits outside any
`try/except`: with a stream whose first poll raises, the monitoring loop
aborts with a propagated exception instead of continuing to poll, while the
max-retries variant keeps polling up to the timeout. -/
theorem poll_raise_aborts_v1 :
    monitorV1 (fun _ => PollResult.raised) 5 0 =
      Except.error "unhandled exception from check_simulation_progress" ∧
    monitorAux (fun _ => PollResult.raised) 5 0 none =
      MonitorOutcome.timedOut none := by
  constructor <;> rfl

/-- **C4 (amended).** In `run_simulation max retries.py` (lines 241-269) a
poll that raises or returns a non-success response is treated as status
unknown: with budget remaining the loop simply proceeds to the next poll with
`run_status` unchanged, and when the budget is exhausted it returns the
monitoring timeout. In `run_simulation.py` (lines 206-226) the same holds for
a non-success response only; a raised poll call propagates (see the
counterexample). -/
theorem poll_error_tolerated (polls : Nat → PollResult) (fuel i : Nat)
    (last : Option String)
    (h : polls i = PollResult.raised ∨ polls i = PollResult.nonSuccess) :
    monitorAux polls (fuel + 1) i last = monitorAux polls fuel (i + 1) last ∧
    monitorAux polls 0 i last = MonitorOutcome.timedOut last ∧
    (polls i = PollResult.nonSuccess →
      monitorV1 polls (fuel + 1) i = monitorV1 polls fuel (i + 1)) := by
  rcases h with h | h
  · refine ⟨?_, ?_, ?_⟩ <;> simp [monitorAux, monitorV1, h]
  · refine ⟨?_, ?_, ?_⟩ <;> simp [monitorAux, monitorV1, h]

/-- Witness for C4: with `exPolls` (raise, then non-success, then success) the
errored first poll advances the loop rather than ending it, and a zero budget
times out. -/
theorem poll_error_tolerated_witness :
    monitorAux exPolls 3 0 none = monitorAux exPolls 2 1 none ∧
    monitorAux exPolls 0 0 none = MonitorOutcome.timedOut none :=
  ⟨(poll_error_tolerated exPolls 2 0 none (Or.inl rfl)).1,
   (poll_error_tolerated exPolls 2 0 none (Or.inl rfl)).2.1⟩

/-! ### Completion sentinel (C7) -/

/-- **C7 counterexample.** The completion flag `parquet_ready.done` is not a
zero-byte file: `run_simulation.py` line 258 writes the five bytes `done\n`
into it, so its contents are non-empty. -/
theorem sentinel_not_empty :
    (sentinelWrite "out").contents = "done\n" ∧
    (sentinelWrite "out").contents ≠ "" := by
  constructor <;> decide

/-- **C7 (amended).** When the artifact-fetch phase completes successfully, a
sentinel file named `parquet_ready.done` containing the single line `done`
(not an empty file) is written beside the downloaded artifacts in the solution
output directory; when the solution id cannot be resolved nothing is
written. -/
theorem sentinel_written_on_completion (p : String) :
    downloadPhaseWrites p SdkResp.success =
      [⟨joinPath p "parquet_ready.done", "done\n"⟩] ∧
    downloadPhaseWrites p SdkResp.failure = [] :=
  ⟨rfl, rfl⟩

/-! ### Fatal-error handling of the two pipelines (C9) -/

/-- **C9 counterexample.** A fatal error in `prepare_duckdb.py.__main__` or in
`processing_data.py.main` does not produce a non-zero process exit: both catch
the exception, print it, and fall through; the exit code is 0. -/
theorem fatal_error_exit_code_zero :
    (prepareMainRun [] (Except.error "boom")).2 = 0 ∧
    (processingMainRun [] (Except.error "boom")).2 = 0 :=
  ⟨rfl, rfl⟩

/-- **C9 (amended).** Fatal errors in the materializer and reporting pipeline
are caught and logged (the exception text is among the printed lines), the
process then exits with code 0 (not a non-zero exit), and the final `done`
line is always the last line emitted, on both the success and the failure
path. -/
theorem done_always_emitted (pre : List String) (body : Except String Unit) :
    (prepareMainRun pre body).1.getLast? = some "done" ∧
    (prepareMainRun pre body).2 = 0 ∧
    (processingMainRun pre body).1.getLast? = some "done" ∧
    (processingMainRun pre body).2 = 0 ∧
    (∀ e, body = Except.error e →
      e ∈ (prepareMainRun pre body).1 ∧ e ∈ (processingMainRun pre body).1) := by
  cases body with
  | ok u =>
    refine ⟨?_, rfl, ?_, rfl, ?_⟩
    · simp [prepareMainRun]
    · simp [processingMainRun]
    · intro e he; cases he
  | error e =>
    refine ⟨?_, rfl, ?_, rfl, ?_⟩
    · show (pre ++ ["Prepare DuckDB (tables) failed:", e, "done"]).getLast? = some "done"
      rw [show pre ++ ["Prepare DuckDB (tables) failed:", e, "done"] =
        (pre ++ ["Prepare DuckDB (tables) failed:", e]) ++ ["done"] by simp]
      simp
    · show (pre ++ ["Processing failed with exception:", e, "done"]).getLast? = some "done"
      rw [show pre ++ ["Processing failed with exception:", e, "done"] =
        (pre ++ ["Processing failed with exception:", e]) ++ ["done"] by simp]
      simp
    · intro e' he'
      cases he'
      constructor <;> simp [prepareMainRun, processingMainRun]

/-- Witness for C9 at a concrete failing body: `done` is still the last line
and the exception text is logged. -/
theorem done_always_emitted_witness :
    (prepareMainRun [] (Except.error "boom")).1.getLast? = some "done" ∧
    "boom" ∈ (prepareMainRun [] (Except.error "boom")).1 := by
  have h := done_always_emitted [] (Except.error "boom")
  exact ⟨h.1, (h.2.2.2.2 "boom" rfl).1⟩

/-! ### Algebra of drop/create statement lists -/

theorem dropNames_cons_drop (n : String) (rest : List DbOp) :
    dropNames (.dropIfExists n :: rest) = n :: dropNames rest := by
  simp [dropNames]

theorem dropNames_cons_create (n : String) (t : DbTable) (rest : List DbOp) :
    dropNames (.create n t :: rest) = dropNames rest := by
  simp [dropNames]

theorem createNames_cons_drop (n : String) (rest : List DbOp) :
    createNames (.dropIfExists n :: rest) = createNames rest := by
  simp [createNames]

theorem createNames_cons_create (n : String) (t : DbTable) (rest : List DbOp) :
    createNames (.create n t :: rest) = n :: createNames rest := by
  simp [createNames]

theorem dropNames_append (a b : List DbOp) :
    dropNames (a ++ b) = dropNames a ++ dropNames b := by
  simp [dropNames]

theorem createNames_append (a b : List DbOp) :
    createNames (a ++ b) = createNames a ++ createNames b := by
  simp [createNames]

theorem applyOps_append (a b : List DbOp) (ts : Tables) :
    applyOps (a ++ b) ts = applyOps b (applyOps a ts) := by
  simp [applyOps, List.foldl_append]

/-- Canonical form of a statement list's effect: the surviving part of the
initial store (every entry whose name is never dropped), followed by what the
statements build from an empty store. -/
theorem applyOps_canon : ∀ (ops : List DbOp) (ts : Tables),
    applyOps ops ts = dropAllNames ts (dropNames ops) ++ applyOps ops [] := by
  intro ops
  induction ops with
  | nil => intro ts; simp [applyOps, dropNames, dropAllNames]
  | cons op rest ih =>
    intro ts
    cases op with
    | dropIfExists n =>
      show applyOps rest (ts.filter fun p => p.1 != n) = _
      rw [ih, dropNames_cons_drop]
      have h2 : applyOps (DbOp.dropIfExists n :: rest) ([] : Tables) =
          applyOps rest [] := rfl
      rw [h2]
      congr 1
      simp only [dropAllNames, List.filter_filter]
      apply List.filter_congr
      intro p _
      simp only [List.contains_cons, Bool.not_or, bne]
      cases he : p.1 == n <;>
        cases hc : (dropNames rest).contains p.1 <;> decide
    | create n t =>
      show applyOps rest (ts ++ [(n, t)]) = _
      rw [ih, dropNames_cons_create]
      have h2 : applyOps (DbOp.create n t :: rest) ([] : Tables) =
          dropAllNames [(n, t)] (dropNames rest) ++ applyOps rest [] := by
        show applyOps rest [(n, t)] = _
        rw [ih]
      rw [h2]
      simp only [dropAllNames, List.filter_append, List.append_assoc]

theorem mem_applyOps : ∀ (ops : List DbOp) (ts : Tables) (p : String × DbTable),
    p ∈ applyOps ops ts → p ∈ ts ∨ p.1 ∈ createNames ops := by
  intro ops
  induction ops with
  | nil =>
    intro ts p h
    exact Or.inl (by simpa [applyOps] using h)
  | cons op rest ih =>
    intro ts p h
    cases op with
    | dropIfExists n =>
      have h' : p ∈ applyOps rest (ts.filter fun q => q.1 != n) := h
      rcases ih _ p h' with hin | hcn
      · exact Or.inl (List.mem_of_mem_filter hin)
      · right
        rw [createNames_cons_drop]
        exact hcn
    | create n t =>
      have h' : p ∈ applyOps rest (ts ++ [(n, t)]) := h
      rcases ih _ p h' with hin | hcn
      · rcases List.mem_append.1 hin with h1 | h2
        · exact Or.inl h1
        · right
          have hp : p = (n, t) := by simpa using h2
          rw [createNames_cons_create, hp]
          exact List.mem_cons_self _ _
      · right
        rw [createNames_cons_create]
        exact List.mem_cons_of_mem _ hcn

theorem applyOps_nil_names (ops : List DbOp) (p : String × DbTable)
    (h : p ∈ applyOps ops []) : p.1 ∈ createNames ops := by
  rcases mem_applyOps ops [] p h with hin | hcn
  · exact absurd hin (List.not_mem_nil p)
  · exact hcn

/-- Running a statement list twice is running it once, as long as every
created table is also dropped somewhere in the list (which `DROP TABLE IF
EXISTS` before every `CREATE` guarantees). -/
theorem applyOps_idem (ops : List DbOp)
    (h : ∀ n, n ∈ createNames ops → n ∈ dropNames ops) (ts : Tables) :
    applyOps ops (applyOps ops ts) = applyOps ops ts := by
  have hcanon2 := applyOps_canon ops (applyOps ops ts)
  rw [hcanon2, applyOps_canon ops ts]
  have hkill : dropAllNames (applyOps ops []) (dropNames ops) = [] := by
    apply List.filter_eq_nil_iff.2
    intro p hp
    have := h p.1 (applyOps_nil_names ops p hp)
    simp [List.elem_iff, this]
  have hstable : dropAllNames (dropAllNames ts (dropNames ops)) (dropNames ops) =
      dropAllNames ts (dropNames ops) := by
    simp only [dropAllNames, List.filter_filter]
    apply List.filter_congr
    intro p _
    cases hc : (dropNames ops).contains p.1 <;> simp [hc]
  simp only [dropAllNames, List.filter_append] at hkill hstable ⊢
  rw [hstable, hkill]
  simp

/-- A `find?` through a name-filter that keeps every entry the predicate could
match. -/
theorem find?_filter_keep {α : Type} (p q : α → Bool)
    (h : ∀ a, p a = true → q a = true) :
    ∀ l : List α, (l.filter q).find? p = l.find? p := by
  intro l
  induction l with
  | nil => rfl
  | cons a t ih =>
    by_cases hq : q a = true
    · rw [List.filter_cons_of_pos hq]
      by_cases hp : p a = true
      · rw [List.find?_cons_of_pos _ hp, List.find?_cons_of_pos _ hp]
      · rw [List.find?_cons_of_neg _ hp, List.find?_cons_of_neg _ hp, ih]
    · have hp : ¬ p a = true := fun hpa => hq (h a hpa)
      rw [List.filter_cons_of_neg hq, List.find?_cons_of_neg _ hp, ih]

theorem getT_applyOps_dropped (ops : List DbOp) (ts : Tables) (n : String)
    (h : n ∈ dropNames ops) :
    getT (applyOps ops ts) n = getT (applyOps ops []) n := by
  rw [applyOps_canon]
  unfold getT
  rw [List.find?_append]
  have hnone : (dropAllNames ts (dropNames ops)).find? (fun p => p.1 == n) = none := by
    apply List.find?_eq_none.2
    intro p hp
    have hnc : ((dropNames ops).contains p.1) = false := by
      have := List.of_mem_filter hp
      simpa using this
    intro hbeq
    have hpn : p.1 = n := by simpa using hbeq
    rw [hpn] at hnc
    simp [List.elem_iff, h] at hnc
  rw [hnone, Option.none_or]

theorem getT_applyOps_untouched (ops : List DbOp) (ts : Tables) (n : String)
    (hd : n ∉ dropNames ops) (hc : n ∉ createNames ops) :
    getT (applyOps ops ts) n = getT ts n := by
  rw [applyOps_canon]
  unfold getT
  rw [List.find?_append]
  have h1 : (dropAllNames ts (dropNames ops)).find? (fun p => p.1 == n) =
      ts.find? (fun p => p.1 == n) := by
    apply find?_filter_keep
    intro a ha
    have : a.1 = n := by simpa using ha
    rw [this]
    simp [List.elem_iff, hd]
  have h2 : (applyOps ops []).find? (fun p => p.1 == n) = none := by
    apply List.find?_eq_none.2
    intro p hp
    intro hbeq
    have hpn : p.1 = n := by simpa using hbeq
    have := applyOps_nil_names ops p hp
    rw [hpn] at this
    exact hc this
  rw [h1, h2, Option.or_none]

theorem getT_filter_ne (ts : Tables) (n m : String) (h : n ≠ m) :
    getT (ts.filter fun p => p.1 != m) n = getT ts n := by
  unfold getT
  rw [find?_filter_keep]
  intro a ha
  have ha' : a.1 = n := by simpa using ha
  rw [ha']
  simp [bne, h]

theorem getT_filter_self (ts : Tables) (m : String) :
    getT (ts.filter fun p => p.1 != m) m = none := by
  unfold getT
  have hnone : (ts.filter fun p => p.1 != m).find? (fun p => p.1 == m) = none := by
    apply List.find?_eq_none.2
    intro p hp hbeq
    have h1 := List.of_mem_filter hp
    have h2 : p.1 = m := by simpa using hbeq
    simp [h2, bne] at h1
  rw [hnone]
  rfl

theorem getT_append_right (a b : Tables) (n : String) (h : getT a n = none) :
    getT (a ++ b) n = getT b n := by
  have hfa : a.find? (fun p => p.1 == n) = none := by
    cases hx : a.find? (fun p => p.1 == n) with
    | none => rfl
    | some p => unfold getT at h; rw [hx] at h; simp at h
  unfold getT at h ⊢
  rw [List.find?_append, hfa, Option.none_or]

theorem getT_append_single_self (a : Tables) (n : String) (t : DbTable)
    (h : getT a n = none) :
    getT (a ++ [(n, t)]) n = some t := by
  rw [getT_append_right a _ n h]
  simp [getT]

/-! ### Materializer statement lists: every created name is dropped first -/

theorem dirOps_names (dirs : List SrcDir) :
    createNames (dirOps dirs) = dropNames (dirOps dirs) := by
  induction dirs with
  | nil => rfl
  | cons d rest ih =>
    have hflat : dirOps (d :: rest) =
        (if d.hasParquet = false then []
         else if lowerAscii d.baseName == "fullkeyinfo" then []
         else if tableNameOf d == "" then []
         else [.dropIfExists (tableNameOf d), .create (tableNameOf d) d.content])
        ++ dirOps rest := by
      simp [dirOps]
    rw [hflat]
    by_cases h1 : d.hasParquet = false
    · simp [h1, createNames_append, dropNames_append, ih]
    · by_cases h2 : lowerAscii d.baseName == "fullkeyinfo"
      · simp [h1, h2, createNames_append, dropNames_append, ih]
      · by_cases h3 : tableNameOf d == ""
        · simp [h1, h2, h3, createNames_append, dropNames_append, ih]
        · simp only [h1, h2, h3, if_false, createNames_append, dropNames_append,
            createNames_cons_drop, createNames_cons_create,
            dropNames_cons_drop, dropNames_cons_create, ih]
          simp [createNames, dropNames]

theorem createNames_prepareOps_subset (src : SrcTree) (u : Option DbTable) :
    ∀ n, n ∈ createNames (prepareOps src u) → n ∈ dropNames (prepareOps src u) := by
  intro n hn
  unfold prepareOps at hn ⊢
  rw [createNames_append, createNames_append] at hn
  rw [dropNames_append, dropNames_append]
  rcases List.mem_append.1 hn with h | hrest
  · rcases List.mem_append.1 h with hdir | hfki
    · apply List.mem_append_left
      apply List.mem_append_left
      rwa [← dirOps_names]
    · apply List.mem_append_left
      apply List.mem_append_right
      cases hst : fkiSource src.dirs with
      | none => rw [hst] at hfki; simp [fkiOps, createNames] at hfki
      | some staging =>
        rw [hst] at hfki
        simp [fkiOps, createNames] at hfki
        rcases hfki with rfl | rfl <;> simp [fkiOps, dropNames]
  · apply List.mem_append_right
    cases hm : src.membershipsCsv with
    | none => rw [hm] at hrest; simp [memOps, createNames] at hrest
    | some t =>
      rw [hm] at hrest
      simp [memOps, createNames] at hrest
      subst hrest
      simp [memOps, dropNames]

/-! ### Materializer: run shape and idempotence (C2) -/

theorem prepareTables_eq_ops (src : SrcTree) (ts : Tables) :
    prepareTables src ts = applyOps (prepareOps src (unitAfterDirs src ts)) ts := by
  unfold prepareTables prepareOps unitAfterDirs
  rw [applyOps_append, applyOps_append]

theorem unit_not_in_fki_dropNames (st u : Option DbTable) :
    "unit" ∉ dropNames (fkiOps st u) := by
  cases st with
  | none => simp [fkiOps, dropNames]
  | some staging => simp [fkiOps, dropNames, List.filterMap]

theorem unit_not_in_fki_createNames (st u : Option DbTable) :
    "unit" ∉ createNames (fkiOps st u) := by
  cases st with
  | none => simp [fkiOps, createNames]
  | some staging => simp [fkiOps, createNames, List.filterMap]

theorem unit_not_in_mem_dropNames (csv : Option DbTable) :
    "unit" ∉ dropNames (memOps csv) := by
  cases csv with
  | none => simp [memOps, dropNames]
  | some t => simp [memOps, dropNames, List.filterMap]

theorem unit_not_in_mem_createNames (csv : Option DbTable) :
    "unit" ∉ createNames (memOps csv) := by
  cases csv with
  | none => simp [memOps, createNames]
  | some t => simp [memOps, createNames, List.filterMap]

/-- The `unit` table the fullkeyinfo step sees is the same on a first run and
on a re-run: either a directory materializes `unit` (then both runs read the
same source-determined table) or nothing in a run ever writes `unit`. -/
theorem unitAfterDirs_stable (src : SrcTree) (ts : Tables) :
    unitAfterDirs src (prepareTables src ts) = unitAfterDirs src ts := by
  by_cases hu : "unit" ∈ dropNames (dirOps src.dirs)
  · unfold unitAfterDirs
    rw [getT_applyOps_dropped (dirOps src.dirs) (prepareTables src ts) _ hu,
        getT_applyOps_dropped (dirOps src.dirs) ts _ hu]
  · have hcn : "unit" ∉ createNames (dirOps src.dirs) := by
      rw [dirOps_names]; exact hu
    unfold unitAfterDirs
    rw [getT_applyOps_untouched _ _ _ hu hcn, getT_applyOps_untouched _ _ _ hu hcn]
    rw [prepareTables_eq_ops]
    apply getT_applyOps_untouched
    · unfold prepareOps
      rw [dropNames_append, dropNames_append]
      intro hmem
      rcases List.mem_append.1 hmem with h | h
      · rcases List.mem_append.1 h with h' | h'
        · exact hu h'
        · exact unit_not_in_fki_dropNames _ _ h'
      · exact unit_not_in_mem_dropNames _ h
    · unfold prepareOps
      rw [createNames_append, createNames_append]
      intro hmem
      rcases List.mem_append.1 hmem with h | h
      · rcases List.mem_append.1 h with h' | h'
        · exact hcn h'
        · exact unit_not_in_fki_createNames _ _ h'
      · exact unit_not_in_mem_createNames _ h

theorem prepareTables_idem (src : SrcTree) (ts : Tables) :
    prepareTables src (prepareTables src ts) = prepareTables src ts := by
  rw [prepareTables_eq_ops src (prepareTables src ts), unitAfterDirs_stable]
  rw [prepareTables_eq_ops src ts]
  exact applyOps_idem _ (createNames_prepareOps_subset src _) ts

/-- **C2.** Re-running `prepare_duckdb` on an unchanged source tree is
idempotent: every table is created by `DROP TABLE IF EXISTS` followed by
`CREATE TABLE ... AS` from the source files, so the re-run reproduces the
same store — in particular the table names and every table's row count are
identical across repeated runs. -/
theorem materialize_idempotent (src : SrcTree) (store : Tables) :
    tableNames (prepareTables src (prepareTables src store)) =
      tableNames (prepareTables src store) ∧
    ∀ n, rowCount (prepareTables src (prepareTables src store)) n =
      rowCount (prepareTables src store) n := by
  rw [prepareTables_idem]
  exact ⟨rfl, fun _ => rfl⟩

/-! ### Locked-store precondition (C5) -/

theorem is_file_locked_go_all_some (scans : Nat → Option Nat) :
    ∀ r i last, (∀ j, j ≤ r → (scans (i + j)).isSome) →
      is_file_locked_go scans i last (r + 1) = scans (i + r) := by
  intro r
  induction r with
  | zero =>
    intro i last hall
    obtain ⟨pid, hpid⟩ := Option.isSome_iff_exists.1 (by simpa using hall 0 (by omega))
    simp [is_file_locked_go, hpid]
  | succ r' ih =>
    intro i last hall
    obtain ⟨pid, hpid⟩ := Option.isSome_iff_exists.1 (by simpa using hall 0 (by omega))
    have hrec := ih (i + 1) (some pid) (fun j hj => by
      have := hall (j + 1) (by omega)
      rwa [show i + (j + 1) = i + 1 + j by omega] at this)
    rw [show i + (r' + 1) = i + 1 + r' by omega, ← hrec]
    simp [is_file_locked_go, hpid]

theorem is_file_locked_all_some (scans : Nat → Option Nat) (retries : Nat)
    (hret : 1 ≤ retries) (hall : ∀ j, j < retries → (scans j).isSome) :
    is_file_locked scans retries = scans (retries - 1) := by
  obtain ⟨r, rfl⟩ : ∃ r, retries = r + 1 := ⟨retries - 1, by omega⟩
  unfold is_file_locked
  rw [is_file_locked_go_all_some scans r 0 none
    (fun j hj => by simpa using hall j (by omega))]
  simp

/-- **C5.** Locked-store precondition: when every scan of the lock-check
retry budget finds the destination store file held by some process,
`prepare_duckdb` raises (reporting the PID the last scan saw) before any SQL
statement runs, and the store — pre-existing or not — is returned exactly as
it was. -/
theorem locked_store_precondition (scans : Nat → Option Nat)
    (retries pid : Nat) (src : SrcTree) (store : Tables)
    (hret : 1 ≤ retries)
    (hall : ∀ j, j < retries → (scans j).isSome)
    (hlast : scans (retries - 1) = some pid) :
    prepare_duckdb_entry scans retries src store = (some pid, store) ∧
    is_file_locked scans retries = some pid := by
  have h := is_file_locked_all_some scans retries hret hall
  rw [hlast] at h
  constructor
  · unfold prepare_duckdb_entry
    rw [h]
  · exact h

/-- Witness for C5: PID 7 holds the file on all five scans; the run raises
with PID 7 and leaves the (empty) store unchanged. -/
theorem locked_store_precondition_witness :
    prepare_duckdb_entry exScans 5 exSrcEmpty [] = (some 7, []) ∧
    is_file_locked exScans 5 = some 7 :=
  locked_store_precondition exScans 5 7 exSrcEmpty []
    (by decide) (fun _ _ => rfl) rfl

/-! ### Logical table name uniqueness (C10) -/

/-- **C10 counterexample.** Two distinct source directories can map to the
same table name: `a-b` and `a_b` both sanitize to `a_b`, and running the
directory loop over both leaves a single table holding only the later
directory's data — the later directory's table silently replaces the
earlier one's. -/
theorem table_name_collision :
    exDirA ≠ exDirB ∧
    tableNameOf exDirA = "a_b" ∧
    tableNameOf exDirB = "a_b" ∧
    getT (applyOps (dirOps [exDirA, exDirB]) []) "a_b" = some exDirB.content ∧
    tableNames (applyOps (dirOps [exDirA, exDirB]) []) = ["a_b"] := by
  refine ⟨by decide, by decide, by decide, by decide, by decide⟩

/-- **C10 (amended).** Distinct source directories need not receive distinct
table names: the sanitized relative path can collide (e.g. `a-b` vs `a_b`),
and any nested directory whose base name matches a canonical key collides
with the top-level one. When two eligible directories derive the same name,
the directory processed later replaces the earlier one's table
(drop-then-create, last writer wins); within the resulting store each table
name still occurs once. -/
theorem table_name_last_writer_wins (ts : Tables) (d1 d2 : SrcDir)
    (h1p : d1.hasParquet = true) (h2p : d2.hasParquet = true)
    (h1f : lowerAscii d1.baseName ≠ "fullkeyinfo")
    (h2f : lowerAscii d2.baseName ≠ "fullkeyinfo")
    (h1n : tableNameOf d1 ≠ "") (h2n : tableNameOf d2 ≠ "")
    (heq : tableNameOf d1 = tableNameOf d2) :
    getT (applyOps (dirOps [d1, d2]) ts) (tableNameOf d2) = some d2.content ∧
    getT (applyOps (dirOps [d1, d2]) ts) (tableNameOf d1) = some d2.content := by
  have hmain : getT (applyOps (dirOps [d1, d2]) ts) (tableNameOf d2) =
      some d2.content := by
    have hops : dirOps [d1, d2] =
        [.dropIfExists (tableNameOf d1), .create (tableNameOf d1) d1.content,
         .dropIfExists (tableNameOf d2), .create (tableNameOf d2) d2.content] := by
      simp [dirOps, h1p, h2p, h1f, h2f, h1n, h2n]
    rw [hops]
    show getT ((((ts.filter fun p => p.1 != tableNameOf d1) ++
        [(tableNameOf d1, d1.content)]).filter fun p => p.1 != tableNameOf d2) ++
        [(tableNameOf d2, d2.content)]) (tableNameOf d2) = some d2.content
    apply getT_append_single_self
    exact getT_filter_self _ _
  exact ⟨hmain, by rw [heq]; exact hmain⟩

/-- Witness for C10's amended claim at the concrete colliding pair. -/
theorem table_name_last_writer_wins_witness :
    getT (applyOps (dirOps [exDirA, exDirB]) []) (tableNameOf exDirB) =
      some exDirB.content ∧
    getT (applyOps (dirOps [exDirA, exDirB]) []) (tableNameOf exDirA) =
      some exDirB.content :=
  table_name_last_writer_wins [] exDirA exDirB rfl rfl
    (by decide) (by decide) (by decide) (by decide) (by decide)

/-! ### fullkeyinfo materialization (C3) -/

theorem dbEq_compat {a b c : DbVal} (hac : dbEq a c = true)
    (hbc : dbEq b c = true) : dbEq a b = true := by
  cases a <;> cases b <;> cases c <;> simp_all [dbEq]

/-- Under a pairwise-incompatibility relation, a filter keeps at most the
first hit: it equals the `find?` result. -/
theorem filter_eq_find?_toList {α : Type} (p : α → Bool) (R : α → α → Prop) :
    ∀ l : List α, l.Pairwise R →
      (∀ a b, R a b → p a = true → p b = true → False) →
      l.filter p = (l.find? p).toList := by
  intro l
  induction l with
  | nil => intro _ _; rfl
  | cons a t ih =>
    intro hp hcompat
    have hra := (List.pairwise_cons.1 hp).1
    have hpt := (List.pairwise_cons.1 hp).2
    by_cases hpa : p a = true
    · rw [List.filter_cons_of_pos hpa, List.find?_cons_of_pos _ hpa]
      have ht : t.filter p = [] := by
        apply List.filter_eq_nil_iff.2
        intro b hb hpb
        exact hcompat a b (hra b hb) hpa hpb
      rw [ht]
      rfl
    · rw [List.filter_cons_of_neg hpa, List.find?_cons_of_neg _ hpa]
      exact ih hpt hcompat

/-- With unique `UnitId` keys in `unit`, the left join emits exactly one row
per staging row: the `enrichRow` one. -/
theorem joinRowUnit_of_uniq (unit : DbTable) (r : DbRow)
    (huniq : unit.rows.Pairwise fun a b =>
      dbEq (getVal a "UnitId") (getVal b "UnitId") = false) :
    joinRowUnit unit r = [enrichRow unit r] := by
  have hfl := filter_eq_find?_toList
    (fun u => dbEq (getVal u "UnitId") (getVal r "UnitId"))
    (fun a b => dbEq (getVal a "UnitId") (getVal b "UnitId") = false)
    unit.rows huniq
    (fun a b hR hpa hpb => by
      have hR' : dbEq (getVal a "UnitId") (getVal b "UnitId") = false := hR
      rw [dbEq_compat hpa hpb] at hR'
      exact absurd hR' (by simp))
  cases hf : unit.rows.find?
      (fun u => dbEq (getVal u "UnitId") (getVal r "UnitId")) with
  | none =>
    have hfilter : unit.rows.filter
        (fun u => dbEq (getVal u "UnitId") (getVal r "UnitId")) = [] := by
      rw [hfl, hf]; rfl
    simp [joinRowUnit, enrichRow, hfilter, hf]
  | some u =>
    have hfilter : unit.rows.filter
        (fun u => dbEq (getVal u "UnitId") (getVal r "UnitId")) = [u] := by
      rw [hfl, hf]; rfl
    simp [joinRowUnit, enrichRow, hfilter, hf]

theorem leftJoinUnit_of_uniq (staging unit : DbTable)
    (huniq : unit.rows.Pairwise fun a b =>
      dbEq (getVal a "UnitId") (getVal b "UnitId") = false) :
    leftJoinUnit staging unit =
      ⟨staging.cols ++ ["UnitName"], staging.rows.map (enrichRow unit)⟩ := by
  unfold leftJoinUnit
  have hmap : ∀ rows : List DbRow,
      rows.flatMap (joinRowUnit unit) = rows.map (enrichRow unit) := by
    intro rows
    induction rows with
    | nil => rfl
    | cons r t ih => simp [joinRowUnit_of_uniq unit r huniq, ih]
  rw [hmap]

/-- Effect of the deferred fullkeyinfo statements on the store: the final
`fullkeyinfo` table is `fkiFinal`, and the staging table is gone. -/
theorem fkiOps_effect (ts : Tables) (staging : DbTable) (u : Option DbTable) :
    getT (applyOps (fkiOps (some staging) u) ts) "fullkeyinfo" =
      some (fkiFinal staging u) ∧
    getT (applyOps (fkiOps (some staging) u) ts) "fullkeyinfo_base" = none := by
  have hshape : applyOps (fkiOps (some staging) u) ts =
      ((((ts.filter fun p => p.1 != "fullkeyinfo_base") ++
          [("fullkeyinfo_base", staging)]).filter fun p => p.1 != "fullkeyinfo") ++
          [("fullkeyinfo", fkiFinal staging u)]).filter
        fun p => p.1 != "fullkeyinfo_base" := rfl
  rw [hshape]
  constructor
  · rw [getT_filter_ne _ _ _ (by decide)]
    apply getT_append_single_self
    exact getT_filter_self _ _
  · exact getT_filter_self _ _

/-- **C3 (amended).** fullkeyinfo materialization, under the added hypothesis
that the `unit` table's `UnitId` keys are pairwise distinct (the intended
lookup-table shape; the counterexample shows the claim fails without it).
After a full `prepare_duckdb` run whose deferred fullkeyinfo source is
`staging` and whose directory loop leaves the `unit` table `u` with both
`UnitId` and `UnitName` columns: the final `fullkeyinfo` table is the left
join of staging against `u` on `UnitId` — its row count equals the staging
row count, each matched row carries the matching unit row's `UnitName`,
unmatched rows carry SQL NULL, and no row is dropped; the staging table
`fullkeyinfo_base` is dropped afterward. When the `unit` table is missing one
of the two columns (or is absent), `fullkeyinfo` is a straight copy of the
staging table. -/
theorem fullkeyinfo_join (src : SrcTree) (ts : Tables) (staging u : DbTable)
    (hst : fkiSource src.dirs = some staging)
    (hu : unitAfterDirs src ts = some u)
    (hid : u.cols.contains "UnitId" = true)
    (hname : u.cols.contains "UnitName" = true)
    (huniq : u.rows.Pairwise fun a b =>
      dbEq (getVal a "UnitId") (getVal b "UnitId") = false) :
    getT (prepareTables src ts) "fullkeyinfo" =
      some ⟨staging.cols ++ ["UnitName"], staging.rows.map (enrichRow u)⟩ ∧
    rowCount (prepareTables src ts) "fullkeyinfo" =
      some staging.rows.length ∧
    getT (prepareTables src ts) "fullkeyinfo_base" = none ∧
    (∀ r ∈ staging.rows,
      (∃ mu, u.rows.find?
          (fun v => dbEq (getVal v "UnitId") (getVal r "UnitId")) = some mu ∧
        enrichRow u r = r ++ [("UnitName", getVal mu "UnitName")]) ∨
      (u.rows.find?
          (fun v => dbEq (getVal v "UnitId") (getVal r "UnitId")) = none ∧
        enrichRow u r = r ++ [("UnitName", DbVal.null)])) ∧
    (∀ (ts' : Tables) (st : DbTable) (u' : Option DbTable),
      ((unitColsOf u').contains "UnitId" &&
        (unitColsOf u').contains "UnitName") = false →
      getT (applyOps (fkiOps (some st) u') ts') "fullkeyinfo" = some st) := by
  have hfkimem : ∀ n : String, n ≠ "memberships" →
      getT (prepareTables src ts) n =
        getT (applyOps (fkiOps (fkiSource src.dirs)
          (unitAfterDirs src ts)) (applyOps (dirOps src.dirs) ts)) n := by
    intro n hn
    show getT (applyOps (memOps src.membershipsCsv) _) n = _
    apply getT_applyOps_untouched
    · cases hm : src.membershipsCsv <;> simp [memOps, dropNames, hn]
    · cases hm : src.membershipsCsv <;> simp [memOps, createNames, hn]
  have heff := fkiOps_effect (applyOps (dirOps src.dirs) ts) staging
    (unitAfterDirs src ts)
  have hfinal : fkiFinal staging (unitAfterDirs src ts) =
      ⟨staging.cols ++ ["UnitName"], staging.rows.map (enrichRow u)⟩ := by
    rw [hu]
    unfold fkiFinal unitColsOf
    rw [hid, hname]
    simp only [Bool.and_self, if_true]
    show leftJoinUnit staging u = _
    exact leftJoinUnit_of_uniq staging u huniq
  have h1 : getT (prepareTables src ts) "fullkeyinfo" =
      some ⟨staging.cols ++ ["UnitName"], staging.rows.map (enrichRow u)⟩ := by
    rw [hfkimem "fullkeyinfo" (by decide), hst]
    rw [heff.1, hfinal]
  refine ⟨h1, ?_, ?_, ?_, ?_⟩
  · rw [rowCount, h1]
    simp
  · rw [hfkimem "fullkeyinfo_base" (by decide), hst]
    exact heff.2
  · intro r _
    cases hf : u.rows.find?
        (fun v => dbEq (getVal v "UnitId") (getVal r "UnitId")) with
    | some mu => exact Or.inl ⟨mu, rfl, by simp [enrichRow, hf]⟩
    | none => exact Or.inr ⟨rfl, by simp [enrichRow, hf]⟩
  · intro ts' st u' hcond
    rw [(fkiOps_effect ts' st u').1]
    unfold fkiFinal
    rw [hcond]
    rfl

/-- **C3 counterexample.** With a `unit` table containing two rows that share
`UnitId = 1`, the left join duplicates the single staging row: the final
`fullkeyinfo` table has 2 rows while the staging table has 1, so the claimed
row-count equality fails. -/
theorem fullkeyinfo_rowcount_counterexample :
    exStagingOne.rows.length = 1 ∧
    rowCount (applyOps (fkiOps (some exStagingOne) (some exUnitDup)) [])
      "fullkeyinfo" = some 2 := by
  exact ⟨rfl, by decide⟩

/-- Witness for C3 at the concrete two-directory source tree: both staging
rows match unit 1, the result has 2 rows, both enriched with `TJ`, and the
staging table is gone. -/
theorem fullkeyinfo_join_witness :
    getT (prepareTables exSrcC3 []) "fullkeyinfo" =
      some ⟨["SeriesId", "UnitId", "UnitName"],
        [[("SeriesId", .int 1), ("UnitId", .int 1), ("UnitName", .str "TJ")],
         [("SeriesId", .int 2), ("UnitId", .int 1), ("UnitName", .str "TJ")]]⟩ ∧
    rowCount (prepareTables exSrcC3 []) "fullkeyinfo" = some 2 ∧
    getT (prepareTables exSrcC3 []) "fullkeyinfo_base" = none := by
  have h := fullkeyinfo_join exSrcC3 [] exFkiStaging exUnitTable
    (by decide) (by decide) (by decide) (by decide) (by decide)
  refine ⟨?_, ?_, h.2.2.1⟩
  · rw [h.1]
    decide
  · rw [h.2.1]
    decide

/-! ### Aggregate stage is a strict summation (C6) -/

theorem lookupTotal_upsert_same (v : ℚ) :
    ∀ (acc : List (AggDims × ℚ)) (d : AggDims),
      lookupTotal (upsertTotal acc d v) d =
        some ((lookupTotal acc d).getD 0 + v) := by
  intro acc
  induction acc with
  | nil =>
    intro d
    simp [upsertTotal, lookupTotal]
  | cons p rest ih =>
    intro d
    obtain ⟨d', v'⟩ := p
    by_cases h : d' = d
    · subst h
      simp [upsertTotal, lookupTotal]
    · have hup : upsertTotal ((d', v') :: rest) d v =
          (d', v') :: upsertTotal rest d v := by
        simp [upsertTotal, h]
      have hskip : ∀ l : List (AggDims × ℚ),
          lookupTotal ((d', v') :: l) d = lookupTotal l d := by
        intro l
        unfold lookupTotal
        rw [List.find?_cons_of_neg]
        simp [h]
      rw [hup, hskip, hskip]
      exact ih d

theorem lookupTotal_upsert_other (v : ℚ) (dr d : AggDims) (h : d ≠ dr) :
    ∀ acc : List (AggDims × ℚ),
      lookupTotal (upsertTotal acc dr v) d = lookupTotal acc d := by
  intro acc
  induction acc with
  | nil =>
    have h' : dr ≠ d := Ne.symm h
    simp [upsertTotal, lookupTotal, h']
  | cons p rest ih =>
    obtain ⟨d', v'⟩ := p
    by_cases h2 : d' = dr
    · subst h2
      have h' : d' ≠ d := Ne.symm h
      simp [upsertTotal, lookupTotal, h']
    · by_cases h3 : d' = d
      · subst h3
        simp [upsertTotal, lookupTotal, h2]
      · have hup : upsertTotal ((d', v') :: rest) dr v =
            (d', v') :: upsertTotal rest dr v := by
          simp [upsertTotal, h2]
        have hskip : ∀ l : List (AggDims × ℚ),
            lookupTotal ((d', v') :: l) d = lookupTotal l d := by
          intro l
          unfold lookupTotal
          rw [List.find?_cons_of_neg]
          simp [h3]
        rw [hup, hskip, hskip]
        exact ih

theorem sumFor_cons (r : RGCRow) (t : List RGCRow) (d : AggDims) :
    sumFor (r :: t) d = (if dimsOf r = d then r.Value else 0) + sumFor t d := by
  unfold sumFor
  by_cases h : dimsOf r = d
  · rw [List.filter_cons_of_pos (by simp [h])]
    simp [h]
  · rw [List.filter_cons_of_neg (by simp [h])]
    simp [h]

/-- The aggregation fold computes, for every dimension tuple present, exactly
the sum of the `Value` column over the rows carrying that tuple. -/
theorem lookupTotal_agg :
    ∀ (rows : List RGCRow) (acc : List (AggDims × ℚ)) (d : AggDims),
      lookupTotal (rows.foldl (fun a r => upsertTotal a (dimsOf r) r.Value) acc) d =
        if (rows.any fun r => dimsOf r == d) || (lookupTotal acc d).isSome then
          some ((lookupTotal acc d).getD 0 + sumFor rows d)
        else none := by
  intro rows
  induction rows with
  | nil =>
    intro acc d
    cases h : lookupTotal acc d with
    | none => simp [h, sumFor]
    | some w => simp [h, sumFor]
  | cons r t ih =>
    intro acc d
    show lookupTotal (t.foldl _ (upsertTotal acc (dimsOf r) r.Value)) d = _
    rw [ih]
    by_cases hd : dimsOf r = d
    · have hu : lookupTotal (upsertTotal acc (dimsOf r) r.Value) d =
          some ((lookupTotal acc d).getD 0 + r.Value) := by
        rw [hd]
        exact lookupTotal_upsert_same r.Value acc d
      rw [hu, List.any_cons]
      simp only [Option.isSome_some, Bool.or_true, if_true, Option.getD_some]
      have hbeq : (dimsOf r == d) = true := by simp [hd]
      rw [hbeq, sumFor_cons]
      simp [hd, add_assoc]
    · have hu := lookupTotal_upsert_other r.Value (dimsOf r) d (Ne.symm hd) acc
      rw [hu, List.any_cons]
      have hbeq : (dimsOf r == d) = false := by simp [hd]
      rw [hbeq, sumFor_cons]
      simp [hd]

/-- **C6.** The aggregate stage is a strict summation: over the filtered rows
of `regional_generation_capacity`, the `region_aggregate_totals` view has one
entry per dimension tuple that occurs, and its `TotalValue` is exactly the sum
of the `Value` column over all filtered rows with that tuple; tuples that do
not occur have no entry. -/
theorem aggregate_is_sum (fki : List FkiRow) (data : List DataRow) (d : AggDims) :
    lookupTotal (region_aggregate_totals
        (regional_generation_capacity fki data)) d =
      if (regional_generation_capacity fki data).any (fun r => dimsOf r == d) then
        some (sumFor (regional_generation_capacity fki data) d)
      else none := by
  unfold region_aggregate_totals
  rw [lookupTotal_agg]
  simp [lookupTotal]

/-- The spec's synthetic check of the aggregate stage: values 5 and 7 share a
dimension tuple and sum to 12; the differing row yields its own total 3. -/
theorem aggregate_example :
    lookupTotal (region_aggregate_totals
      (regional_generation_capacity [exKey1, exKey2] exData)) exDims1 =
        some 12 ∧
    lookupTotal (region_aggregate_totals
      (regional_generation_capacity [exKey1, exKey2] exData)) exDims2 =
        some 3 := by
  constructor <;>
    · simp [regional_generation_capacity, region_aggregate_totals, exKey1,
        exKey2, exData, exDims1, exDims2, rgcPred, dimsOf, upsertTotal,
        lookupTotal]
      try norm_num

/-! ### Reporting run effects on the store (C8) -/

/-- **C8 counterexample.** The reporting projections are persisted in the
store: a run over a store with an empty view catalog leaves the three views
in the catalog (DuckDB persists `CREATE OR REPLACE VIEW` in a file-backed
database), contradicting "never persisted as views in the store across
runs". -/
theorem views_persisted_counterexample :
    (processing_run ⟨[], []⟩ none "out" "2026-10-12").1.views =
      [("regional_generation_capacity", ViewDef.regionalGenerationCapacity),
       ("region_aggregate_totals", ViewDef.regionAggregateTotals),
       ("reporting_data", ViewDef.reportingData)] ∧
    (processing_run ⟨[], []⟩ none "out" "2026-10-12").1.views ≠ [] := by
  constructor <;> decide

theorem configure_views_idem (s : Store) :
    configure_views (configure_views s) = configure_views s := by
  unfold configure_views setView
  simp only [List.filter_append, List.filter_filter]
  simp
  apply List.filter_congr
  intro p _
  cases h1 : p.1 != "regional_generation_capacity" <;>
    cases h2 : p.1 != "region_aggregate_totals" <;>
      cases h3 : p.1 != "reporting_data" <;> rfl

/-- **C8 (amended).** A reporting run reads the source tables and writes only
two things into the store: the `memberships` table (replaced by the load
stage) and the three reporting views. The filter, aggregate and enrich stages
(`configure_views`) mutate no table at all; every table other than
`memberships` is left exactly as it was; and the views are regenerated with
replace semantics — they do persist in the store across runs, and a second
run leaves the same view catalog. The exported snapshots are separate
files. -/
theorem reporting_run_effect (s : Store) (csv : Option DbTable)
    (op ds : String) :
    (configure_views s).tables = s.tables ∧
    (∀ n, n ≠ "memberships" →
      getT (processing_run s csv op ds).1.tables n = getT s.tables n) ∧
    ("reporting_data", ViewDef.reportingData) ∈
      (processing_run s csv op ds).1.views ∧
    (processing_run (processing_run s csv op ds).1 csv op ds).1.views =
      (processing_run s csv op ds).1.views := by
  have hlv : ∀ (x : Store), (load_memberships x csv).views = x.views := by
    intro x; cases csv <;> rfl
  have hlt : ∀ (x : Store) (n : String), n ≠ "memberships" →
      getT (load_memberships x csv).tables n = getT x.tables n := by
    intro x n hn
    cases hm : csv with
    | none => rfl
    | some t =>
      show getT (applyOps [.dropIfExists "memberships",
        .create "memberships" t] x.tables) n = _
      apply getT_applyOps_untouched
      · simp [dropNames, hn]
      · simp [createNames, hn]
  refine ⟨rfl, ?_, ?_, ?_⟩
  · intro n hn
    show getT (configure_views (load_memberships s csv)).tables n = _
    have h1 : (configure_views (load_memberships s csv)).tables =
        (load_memberships s csv).tables := rfl
    rw [h1]
    exact hlt s n hn
  · show ("reporting_data", ViewDef.reportingData) ∈
      setView _ "reporting_data" .reportingData
    unfold setView
    exact List.mem_append_right _ (List.mem_singleton.2 rfl)
  · have hF : ∀ (x : Store), (configure_views x).views =
        setView (setView (setView x.views "regional_generation_capacity"
            ViewDef.regionalGenerationCapacity) "region_aggregate_totals"
          ViewDef.regionAggregateTotals) "reporting_data"
          ViewDef.reportingData := fun _ => rfl
    show (configure_views (load_memberships
        (configure_views (load_memberships s csv)) csv)).views = _
    rw [hF (load_memberships
        (configure_views (load_memberships s csv)) csv), hlv]
    rw [hF (load_memberships s csv)]
    have hidem := congrArg Store.views
      (configure_views_idem (load_memberships s csv))
    rw [hF (configure_views (load_memberships s csv)),
        hF (load_memberships s csv)] at hidem
    exact hidem

/-- Witness for C8: on a store holding one `data` table, a run leaves that
table untouched and the `reporting_data` view present. -/
theorem reporting_run_effect_witness :
    getT (processing_run exStoreC8 none "out" "d").1.tables "data" =
      getT exStoreC8.tables "data" ∧
    ("reporting_data", ViewDef.reportingData) ∈
      (processing_run exStoreC8 none "out" "d").1.views := by
  have h := reporting_run_effect exStoreC8 none "out" "d"
  exact ⟨h.2.1 "data" (by decide), h.2.2.1⟩

end PlexosDash
